import Mathlib

/-!
# zap segment memory mapping (`mem.go`)

A shallow embedding of `mem.go`: the process-wide mmap byte counter with its two
policy variables, the per-segment `loadMmap` / `unloadMmap` / `MmapHint` /
`readMM` methods, and `SegmentBase.readMem`.

Modelling conventions.

* Go `int64` values are integers kept in range by `int64`, the two's-complement
  wraparound that Go's `+`, unary `-`, `atomic.AddInt64` and the conversion
  `int64(x)` perform.
* A Go `error` result is `Option GoError`; `none` is `nil`.
* A call into the operating system (`mmap.Map`, `MMap.Unmap`, the positioned read
  behind `ioutil.ReadAll`) takes its outcome as an extra argument, and every method
  reports which OS call it performed, so that theorems can quantify over all
  outcomes and count the calls made.
* `MMap.Unmap` has a pointer receiver and sets the slice it is called on to nil
  whether or not the unmap succeeds. `mem.go` calls it on the field `s.mm`, so
  after `s.mm.Unmap()` the view slot is nil on either outcome.
* The methods are executed one after another; the locks of `mem.go` then have no
  effect on the result and are not represented.
-/

namespace Zap

/-! ## Data model -/

/-- A byte of a file or of mapped memory. -/
abbrev Byte := Fin 256

/-- Go's `int64(x)`: reduce an integer to the two's-complement range
`[-2^63, 2^63)`. -/
def int64 (x : Int) : Int := (x + 2 ^ 63) % 2 ^ 64 - 2 ^ 63

/-- The values of type `int64`. -/
def isInt64 (x : Int) : Prop := -(2 ^ 63) ≤ x ∧ x < 2 ^ 63

instance (x : Int) : Decidable (isInt64 x) := by
  unfold isInt64
  infer_instance

/-- Largest `int64`. -/
def maxInt64 : Int := 2 ^ 63 - 1

/-- A non-nil Go `error`, identified by an error number. -/
structure GoError where
  errno : Nat
deriving DecidableEq

/-- The type `mmap.MMap`: a byte slice over mapped memory, identified by its address. -/
structure MMap where
  addr : Nat
  data : List Byte
deriving DecidableEq

/-- The file behind an `*os.File` handle: its bytes. -/
structure File where
  content : List Byte
deriving DecidableEq

/-- The fields of `Segment` that `mem.go` uses: the file handle `f`, the view slot
`mm` (`none` is the nil slice) and `mmSize`. The declared type of `mmSize` is not
part of `mem.go`; it is kept as an integer and converted by `int64` where the
code writes `int64(s.mmSize)`. -/
structure Segment where
  f : File
  mm : Option MMap
  mmSize : Int
deriving DecidableEq

/-- The package-level variables of `mem.go`. -/
structure Globals where
  mmapCurrentBytes : Int
  MmapIgnoreErrors : Bool
  MmapMaxBytes : Int
deriving DecidableEq

/-- The struct `zapStats`. -/
structure zapStats where
  MmapCurrentBytes : Int
deriving DecidableEq

/-- Outcome of `mmap.Map(s.f, mmap.RDONLY, 0)`: a view, or an error. -/
inductive MapResult where
  | ok (mm : MMap)
  | err (e : GoError)
deriving DecidableEq

/-- An operating-system call made by a method, with its outcome. -/
inductive OSCall where
  | map (res : MapResult)
  | unmap (mm : MMap) (res : Option GoError)
deriving DecidableEq

/-- What a method call leaves behind: the returned `error`, the package variables,
the segment, and the OS call it performed (if any). -/
structure Ret where
  err : Option GoError
  g : Globals
  s : Segment
  os : Option OSCall
deriving DecidableEq

/-! ## The functions of `mem.go` -/

/-- The function `Stats`. -/
def Stats (g : Globals) : zapStats :=
  { MmapCurrentBytes := g.mmapCurrentBytes }

/-- The limit computed by `io.NewSectionReader(r, off, n)`, in `int64` arithmetic. -/
def sectionLimit (off n : Int) : Int :=
  if off ≤ int64 (maxInt64 - n) then int64 (n + off) else maxInt64

/-- The data returned by `ioutil.ReadAll(io.NewSectionReader(f, off, n))`; the
error is dropped, as `readMM` drops it, and `none` is a run-time panic.
`SectionReader.Read` returns EOF at once when `off` has reached the limit;
otherwise it cuts its buffer to `p[0:max]` with `max = limit - off` in `int64`,
which panics when `max` is negative; `File.ReadAt` then rejects a negative
offset. Else the reader delivers the bytes of the file from `off` up to the
limit or the end of the file; `fault = some k` is a device that fails after
delivering `k` bytes. -/
def readAllSection (f : File) (fault : Option Nat) (off n : Int) : Option (List Byte) :=
  if sectionLimit off n ≤ off then some []
  else if int64 (sectionLimit off n - off) < 0 then none
  else if off < 0 then some []
  else
    let want := (f.content.drop off.toNat).take (sectionLimit off n - off).toNat
    match fault with
    | none => some want
    | some k => some (want.take k)

/-- The slice expression `b[start:end]` on a slice whose capacity is its length:
`none` is the run-time panic for indices out of range. -/
def sliceRange (b : List Byte) (start stop : Nat) : Option (List Byte) :=
  if start ≤ stop ∧ stop ≤ b.length then some ((b.take stop).drop start) else none

/-- The method `Segment.readMM`. `start` and `stop` are the `uint64` arguments;
`fault` is the outcome of the positioned read on the fallback path. -/
def readMM (s : Segment) (fault : Option Nat) (start stop : Nat) : Option (List Byte) :=
  match s.mm with
  | some mm => sliceRange mm.data start stop
  | none =>
    readAllSection s.f fault (int64 start) (int64 ((stop - start : Int) % 2 ^ 64))

/-- The budget gate at the head of `loadMmap`:
`MmapMaxBytes > 0 && mmapCurrentBytes + int64(s.mmSize) > MmapMaxBytes`. -/
def overBudget (g : Globals) (s : Segment) : Bool :=
  decide (g.MmapMaxBytes > 0) &&
    decide (int64 (g.mmapCurrentBytes + int64 s.mmSize) > g.MmapMaxBytes)

/-- The method `Segment.loadMmap`; `osMap` is the outcome `mmap.Map` has if called. -/
def loadMmap (g : Globals) (s : Segment) (osMap : MapResult) : Ret :=
  if overBudget g s then
    { err := none, g := g, s := s, os := none }
  else if s.mm.isSome then
    { err := none, g := g, s := s, os := none }
  else if s.mm.isSome then
    { err := none, g := g, s := s, os := none }
  else
    match osMap with
    | .ok mm =>
      { err := none
        g := { g with mmapCurrentBytes := int64 (g.mmapCurrentBytes + int64 s.mmSize) }
        s := { s with mm := some mm }
        os := some (.map osMap) }
    | .err e =>
      if g.MmapIgnoreErrors then
        { err := none, g := g, s := s, os := some (.map osMap) }
      else
        { err := some e, g := g, s := s, os := some (.map osMap) }

/-- The method `Segment.unloadMmap`; `osUnmap` is the error `s.mm.Unmap()` returns
if called. The call itself leaves `s.mm` nil; the counter is lowered only in the
branch `err == nil`. -/
def unloadMmap (g : Globals) (s : Segment) (osUnmap : Option GoError) : Ret :=
  match s.mm with
  | none => { err := none, g := g, s := s, os := none }
  | some mm =>
    match osUnmap with
    | none =>
      { err := none
        g := { g with
          mmapCurrentBytes := int64 (g.mmapCurrentBytes + int64 (-(int64 s.mmSize))) }
        s := { s with mm := none }
        os := some (.unmap mm none) }
    | some e =>
      { err := some e, g := g, s := { s with mm := none }
        os := some (.unmap mm (some e)) }

/-- The method `Segment.MmapHint`: `loadMmap` with the returned error dropped. -/
def MmapHint (g : Globals) (s : Segment) (osMap : MapResult) : Ret :=
  { loadMmap g s osMap with err := none }

/-! ## Sequences of calls over several segments -/

/-- The process state: the package variables and the open segments. -/
structure World where
  g : Globals
  segs : List Segment
deriving DecidableEq

/-- One step of a client: a method call on segment number `i` together with the
outcome of the OS call it may make, or an assignment to a policy variable. -/
inductive Call where
  | loadMmap (i : Nat) (osMap : MapResult)
  | unloadMmap (i : Nat) (osUnmap : Option GoError)
  | MmapHint (i : Nat) (osMap : MapResult)
  | setMmapMaxBytes (b : Int)
  | setMmapIgnoreErrors (b : Bool)
deriving DecidableEq

/-- Install the result of a method call on segment `i`. -/
def World.commit (w : World) (i : Nat) (r : Ret) : World × List (Nat × OSCall) :=
  ({ g := r.g, segs := w.segs.set i r.s }, (r.os.map (fun c => (i, c))).toList)

/-- Execute one call; a call on a segment number that is not open does nothing.
The second component lists the OS calls made, tagged with the segment. -/
def step (w : World) : Call → World × List (Nat × OSCall)
  | .loadMmap i osMap =>
    match w.segs[i]? with
    | none => (w, [])
    | some s => w.commit i (loadMmap w.g s osMap)
  | .unloadMmap i osUnmap =>
    match w.segs[i]? with
    | none => (w, [])
    | some s => w.commit i (unloadMmap w.g s osUnmap)
  | .MmapHint i osMap =>
    match w.segs[i]? with
    | none => (w, [])
    | some s => w.commit i (MmapHint w.g s osMap)
  | .setMmapMaxBytes b => ({ w with g := { w.g with MmapMaxBytes := b } }, [])
  | .setMmapIgnoreErrors b => ({ w with g := { w.g with MmapIgnoreErrors := b } }, [])

/-- Execute a sequence of calls one after another, collecting the OS calls made. -/
def run : World → List Call → World × List (Nat × OSCall)
  | w, [] => (w, [])
  | w, c :: cs => ((run (step w c).1 cs).1, (step w c).2 ++ (run (step w c).1 cs).2)

/-- The state before any call: every segment Unmapped, the counter 0. A segment is
given by its file and its `mmSize`. -/
def initWorld (ignoreErrors : Bool) (maxBytes : Int) (files : List (File × Int)) : World :=
  { g := { mmapCurrentBytes := 0, MmapIgnoreErrors := ignoreErrors, MmapMaxBytes := maxBytes }
    segs := files.map (fun p => { f := p.1, mm := none, mmSize := p.2 }) }

/-- Sum of `mmSize` over the segments whose view is present. -/
def mappedBytes (segs : List Segment) : Int :=
  ((segs.filter (fun s => s.mm.isSome)).map (fun s => s.mmSize)).sum

/-- Effect of one OS call on the number of mappings of segment `i` that exist:
a successful map creates one, a successful unmap removes one. -/
def liveDelta (i : Nat) : Nat × OSCall → Int
  | (j, .map (.ok _)) => if j = i then 1 else 0
  | (j, .unmap _ none) => if j = i then -1 else 0
  | _ => 0

/-- Number of OS mappings created for segment `i` and not yet successfully
unmapped, after the OS calls of a log. -/
def liveMappings (i : Nat) (log : List (Nat × OSCall)) : Int :=
  (log.map (liveDelta i)).sum

/-- Contribution of one segment to `mappedBytes`. -/
def viewBytes (s : Segment) : Int := if s.mm.isSome then s.mmSize else 0

/-- A `loadMmap` whose `mmap.Map` succeeds with `mm`, followed by an `unloadMmap`
whose `Unmap` succeeds. -/
def loadUnload (g : Globals) (s : Segment) (mm : MMap) : Ret :=
  unloadMmap (loadMmap g s (.ok mm)).g (loadMmap g s (.ok mm)).s none

/-- Repeat `loadUnload`, once for each view the OS hands out. The boolean tells
whether every `loadMmap` and every `unloadMmap` of the sequence returned nil. -/
def loadUnloadAll : Globals → Segment → List MMap → Globals × Segment × Bool
  | g, s, [] => (g, s, true)
  | g, s, mm :: rest =>
    ((loadUnloadAll (loadUnload g s mm).g (loadUnload g s mm).s rest).1,
     (loadUnloadAll (loadUnload g s mm).g (loadUnload g s mm).s rest).2.1,
     (loadMmap g s (.ok mm)).err.isNone && (loadUnload g s mm).err.isNone &&
       (loadUnloadAll (loadUnload g s mm).g (loadUnload g s mm).s rest).2.2)

/-! ## Reads: `readMem` and the state left by `readMM` -/

/-- The interface `mmapOwner`: an implementer of `readMM(start, end)`. `none` is a
run-time panic inside the implementer. -/
structure mmapOwner where
  readMM : Nat → Nat → Option (List Byte)

/-- A Go byte slice with its capacity: `backing` holds the bytes up to the
capacity, of which the first `len` are the elements of the slice. -/
structure ByteSlice where
  backing : List Byte
  len : Nat
deriving DecidableEq

/-- The fields of `SegmentBase` that `mem.go` uses: the in-memory bytes `mem` and
the attached owner (`none` is the nil interface). -/
structure SegmentBase where
  mem : ByteSlice
  mmapOwner : Option mmapOwner

/-- The method `SegmentBase.readMem`. The slice expression `s.mem[start:end]` is
checked against the capacity of `mem`. -/
def readMem (s : SegmentBase) (start stop : Nat) : Option (List Byte) :=
  match s.mmapOwner with
  | some owner => owner.readMM start stop
  | none => sliceRange s.mem.backing start stop

/-- A `Segment`, with the outcome of its positioned reads, as an `mmapOwner`. -/
def Segment.asOwner (s : Segment) (fault : Option Nat) : mmapOwner :=
  { readMM := fun start stop => readMM s fault start stop }

/-- What a call of `readMM` leaves behind: the returned bytes, the package
variables and the segment. -/
structure ReadRet where
  data : Option (List Byte)
  g : Globals
  s : Segment
deriving DecidableEq

/-- The method `Segment.readMM` with the state it leaves: the body assigns to no
field of the segment and to no package variable. -/
def readMMCall (g : Globals) (s : Segment) (fault : Option Nat) (start stop : Nat) : ReadRet :=
  { data := readMM s fault start stop, g := g, s := s }

/-! ## Concrete data used to instantiate the theorems -/

/-- A five-byte file. -/
def fileA : File := { content := [10, 20, 30, 40, 50] }

/-- A three-byte file. -/
def fileB : File := { content := [7, 8, 9] }

/-- The view the OS returns for `fileA`. -/
def viewA : MMap := { addr := 4096, data := [10, 20, 30, 40, 50] }

/-- The view the OS returns for `fileB`. -/
def viewB : MMap := { addr := 8192, data := [7, 8, 9] }

/-- The segment over `fileA`, Unmapped. -/
def segA : Segment := { f := fileA, mm := none, mmSize := 5 }

/-- The segment over `fileA`, Mapped. -/
def segAMapped : Segment := { f := fileA, mm := some viewA, mmSize := 5 }

/-- An out-of-memory error from the OS. -/
def enomem : GoError := { errno := 12 }

/-- Package variables at start: counter 0, errors reported, no maximum. -/
def globals0 : Globals := { mmapCurrentBytes := 0, MmapIgnoreErrors := false, MmapMaxBytes := 0 }

/-- Two segments, over `fileA` and `fileB`. -/
def twoFiles : List (File × Int) := [(fileA, 5), (fileB, 3)]

/-- One segment, over `fileA`. -/
def oneFile : List (File × Int) := [(fileA, 5)]

/-- A successful load followed by an unload whose OS unmap fails. -/
def failedUnmapCalls : List Call :=
  [.loadMmap 0 (.ok viewA), .unloadMmap 0 (some enomem)]

/-- A successful load, an unload whose OS unmap fails, and a second successful
load of the same segment. -/
def remapCalls : List Call :=
  [.loadMmap 0 (.ok viewA), .unloadMmap 0 (some enomem), .loadMmap 0 (.ok viewB)]

/-- Package variables with the five bytes of `segAMapped` counted. -/
def globalsFive : Globals :=
  { mmapCurrentBytes := 5, MmapIgnoreErrors := false, MmapMaxBytes := 0 }

/-- A segment whose `mmSize` is `2^63 - 5`. -/
def segHuge : Segment := { f := fileB, mm := none, mmSize := 2 ^ 63 - 5 }

/-- In-memory bytes of a segment base: four elements in a backing array of six. -/
def memA : ByteSlice := { backing := [1, 2, 3, 4, 5, 6], len := 4 }

/-- Package variables with 3 bytes mapped under a maximum of 4. -/
def globalsFull : Globals :=
  { mmapCurrentBytes := 3, MmapIgnoreErrors := false, MmapMaxBytes := 4 }

/-- The segment over `fileB`, Mapped. -/
def segBMapped : Segment := { f := fileB, mm := some viewB, mmSize := 3 }

/-- A process whose maximum leaves no room for `segA`: only `segBMapped` is mapped. -/
def worldFull : World := { g := globalsFull, segs := [segA, segBMapped] }

/-! ## Arithmetic of `int64` -/
theorem int64_isInt64 (x : Int) : isInt64 (int64 x) := by
  unfold isInt64 int64; omega
theorem int64_of_isInt64 {x : Int} (h : isInt64 x) : int64 x = x := by
  unfold isInt64 at h; unfold int64; omega

/-! ## Mapped bytes of a list of segments -/
theorem mappedBytes_cons (a : Segment) (l : List Segment) :
    mappedBytes (a :: l) = viewBytes a + mappedBytes l := by
  unfold mappedBytes viewBytes
  by_cases h : a.mm.isSome <;> simp [List.filter_cons, h]

theorem mappedBytes_set (l : List Segment) (i : Nat) (s t : Segment) (h : l[i]? = some s) :
    mappedBytes (l.set i t) = mappedBytes l - viewBytes s + viewBytes t := by
  induction l generalizing i with
  | nil => simp at h
  | cons a l ih =>
    cases i with
    | zero =>
      simp at h
      subst h
      simp only [List.set_cons_zero, mappedBytes_cons]
      omega
    | succ i =>
      simp at h
      simp only [List.set_cons_succ, mappedBytes_cons, ih i h]
      omega

theorem initWorld_mappedBytes (ig : Bool) (mx : Int) (files : List (File × Int)) :
    mappedBytes (initWorld ig mx files).segs = 0 := by
  unfold initWorld
  induction files with
  | nil => simp [mappedBytes]
  | cons a l ih =>
    simp only [List.map_cons, mappedBytes_cons, viewBytes] at ih ⊢
    simpa using ih

theorem mappedBytes_bounds (l : List Segment)
    (hnn : ∀ x ∈ l.map (fun s => s.mmSize), 0 ≤ x) :
    0 ≤ mappedBytes l ∧ mappedBytes l ≤ (l.map (fun s => s.mmSize)).sum := by
  induction l with
  | nil => simp [mappedBytes]
  | cons a l ih =>
    have ha : 0 ≤ a.mmSize := hnn a.mmSize (by simp)
    have hl := ih (fun x hx => hnn x (by simp only [List.map_cons, List.mem_cons]; exact Or.inr hx))
    simp only [mappedBytes_cons, List.map_cons, List.sum_cons, viewBytes]
    split <;> omega

/-! ## Method-level facts -/

theorem int64_add_int64 (a b : Int) : int64 (a + int64 b) = int64 (a + b) := by
  unfold int64; omega

theorem loadMmap_of_overBudget (g : Globals) (s : Segment) (osMap : MapResult)
    (h : overBudget g s = true) :
    loadMmap g s osMap = { err := none, g := g, s := s, os := none } := by
  simp [loadMmap, h]

theorem loadMmap_of_mapped (g : Globals) (s : Segment) (osMap : MapResult)
    (h : s.mm.isSome = true) :
    loadMmap g s osMap = { err := none, g := g, s := s, os := none } := by
  unfold loadMmap
  by_cases hb : overBudget g s = true <;> simp [hb, h]

theorem loadMmap_of_ok (g : Globals) (s : Segment) (mm : MMap)
    (hb : overBudget g s = false) (hs : s.mm = none) :
    loadMmap g s (.ok mm) =
      { err := none
        g := { g with mmapCurrentBytes := int64 (g.mmapCurrentBytes + int64 s.mmSize) }
        s := { s with mm := some mm }
        os := some (.map (.ok mm)) } := by
  simp [loadMmap, hb, hs]

theorem loadMmap_of_err (g : Globals) (s : Segment) (e : GoError)
    (hb : overBudget g s = false) (hs : s.mm = none) :
    loadMmap g s (.err e) =
      { err := if g.MmapIgnoreErrors then none else some e
        g := g, s := s, os := some (.map (.err e)) } := by
  by_cases hi : g.MmapIgnoreErrors = true <;> simp [loadMmap, hb, hs, hi]

theorem unloadMmap_of_unmapped (g : Globals) (s : Segment) (osUnmap : Option GoError)
    (hs : s.mm = none) :
    unloadMmap g s osUnmap = { err := none, g := g, s := s, os := none } := by
  simp [unloadMmap, hs]

theorem unloadMmap_of_ok (g : Globals) (s : Segment) (mm : MMap) (hs : s.mm = some mm) :
    unloadMmap g s none =
      { err := none
        g := { g with
          mmapCurrentBytes := int64 (g.mmapCurrentBytes + int64 (-(int64 s.mmSize))) }
        s := { s with mm := none }
        os := some (.unmap mm none) } := by
  simp [unloadMmap, hs]

theorem unloadMmap_of_failed (g : Globals) (s : Segment) (mm : MMap) (e : GoError)
    (hs : s.mm = some mm) :
    unloadMmap g s (some e) =
      { err := some e, g := g, s := { s with mm := none }
        os := some (.unmap mm (some e)) } := by
  simp [unloadMmap, hs]

/-! ## Segment sizes along a sequence of calls -/

theorem loadMmap_mmSize (g : Globals) (s : Segment) (os : MapResult) :
    (loadMmap g s os).s.mmSize = s.mmSize := by
  unfold loadMmap
  by_cases hb : overBudget g s = true
  · simp [hb]
  · by_cases hm : s.mm.isSome = true
    · simp [hb, hm]
    · cases os with
      | ok mm => simp [hb, hm]
      | err e => by_cases hi : g.MmapIgnoreErrors = true <;> simp [hb, hm, hi]

theorem unloadMmap_mmSize (g : Globals) (s : Segment) (os : Option GoError) :
    (unloadMmap g s os).s.mmSize = s.mmSize := by
  unfold unloadMmap
  cases hm : s.mm with
  | none => simp
  | some mm => cases os <;> simp

theorem set_map_mmSize (l : List Segment) (i : Nat) (s t : Segment)
    (hs : l[i]? = some s) (ht : t.mmSize = s.mmSize) :
    (l.set i t).map (fun x => x.mmSize) = l.map (fun x => x.mmSize) := by
  induction l generalizing i with
  | nil => simp
  | cons a l ih =>
    cases i with
    | zero =>
      simp at hs
      subst hs
      simp [ht]
    | succ i =>
      simp at hs
      simp [ih i hs]

theorem step_sizes (w : World) (c : Call) :
    (step w c).1.segs.map (fun x => x.mmSize) = w.segs.map (fun x => x.mmSize) := by
  cases c with
  | loadMmap i os =>
    rcases hs : w.segs[i]? with _ | s
    · simp only [step, hs]
    · simp only [step, hs, World.commit]
      exact set_map_mmSize _ _ s _ hs (loadMmap_mmSize _ _ _)
  | unloadMmap i os =>
    rcases hs : w.segs[i]? with _ | s
    · simp only [step, hs]
    · simp only [step, hs, World.commit]
      exact set_map_mmSize _ _ s _ hs (unloadMmap_mmSize _ _ _)
  | MmapHint i os =>
    rcases hs : w.segs[i]? with _ | s
    · simp only [step, hs]
    · simp only [step, hs, World.commit]
      exact set_map_mmSize _ _ s _ hs (by simpa [MmapHint] using loadMmap_mmSize _ _ _)
  | setMmapMaxBytes b => simp only [step]
  | setMmapIgnoreErrors b => simp only [step]

theorem run_sizes (w : World) (cs : List Call) :
    (run w cs).1.segs.map (fun x => x.mmSize) = w.segs.map (fun x => x.mmSize) := by
  induction cs generalizing w with
  | nil => rfl
  | cons c cs ih => simp only [run, ih, step_sizes]

theorem initWorld_sizes (ig : Bool) (mx : Int) (files : List (File × Int)) :
    (initWorld ig mx files).segs.map (fun x => x.mmSize) = files.map (fun p => p.2) := by
  simp [initWorld]

/-! ## The counter under a fixed maximum -/

theorem viewBytes_unmapped (s : Segment) : viewBytes { s with mm := none } = 0 := by
  simp [viewBytes]

theorem loadMmap_within_max (g : Globals) (s : Segment) (os : MapResult) (M : Int)
    (hB : 0 < g.MmapMaxBytes) (hn : 0 ≤ s.mmSize)
    (hfit : g.MmapMaxBytes + s.mmSize < 2 ^ 63)
    (hM0 : 0 ≤ M - viewBytes s) (hM : M ≤ g.mmapCurrentBytes)
    (hle : g.mmapCurrentBytes ≤ g.MmapMaxBytes) :
    M - viewBytes s + viewBytes (loadMmap g s os).s ≤ (loadMmap g s os).g.mmapCurrentBytes ∧
    (loadMmap g s os).g.mmapCurrentBytes ≤ g.MmapMaxBytes ∧
    (loadMmap g s os).g.MmapMaxBytes = g.MmapMaxBytes := by
  have hsame : M - viewBytes s + viewBytes s ≤ g.mmapCurrentBytes := by omega
  by_cases hb : overBudget g s = true
  · rw [loadMmap_of_overBudget g s os hb]
    exact ⟨hsame, hle, rfl⟩
  · have hb2 : overBudget g s = false := by simpa using hb
    cases hm : s.mm with
    | some mm =>
      rw [loadMmap_of_mapped g s os (by simp [hm])]
      exact ⟨hsame, hle, rfl⟩
    | none =>
      have hv : viewBytes s = 0 := by simp [viewBytes, hm]
      cases os with
      | ok mm =>
        rw [loadMmap_of_ok g s mm hb2 hm]
        have hsum : int64 (g.mmapCurrentBytes + int64 s.mmSize)
            = g.mmapCurrentBytes + s.mmSize := by
          rw [int64_add_int64]
          exact int64_of_isInt64 (by unfold isInt64; omega)
        have hvn : viewBytes { s with mm := some mm } = s.mmSize := by simp [viewBytes]
        simp only [overBudget, Bool.and_eq_false_imp, decide_eq_true_eq,
          decide_eq_false_iff_not, not_lt, gt_iff_lt] at hb2
        have hgate := hb2 hB
        rw [hsum] at hgate
        refine ⟨?_, ?_, rfl⟩
        · show M - viewBytes s + viewBytes { s with mm := some mm }
            ≤ int64 (g.mmapCurrentBytes + int64 s.mmSize)
          rw [hsum, hvn]
          omega
        · show int64 (g.mmapCurrentBytes + int64 s.mmSize) ≤ g.MmapMaxBytes
          rw [hsum]
          exact hgate
      | err e =>
        rw [loadMmap_of_err g s e hb2 hm]
        exact ⟨hsame, hle, rfl⟩

theorem unloadMmap_within_max (g : Globals) (s : Segment) (os : Option GoError) (M : Int)
    (hn : 0 ≤ s.mmSize) (hmax : g.MmapMaxBytes < 2 ^ 63)
    (hM0 : 0 ≤ M - viewBytes s) (hM : M ≤ g.mmapCurrentBytes)
    (hle : g.mmapCurrentBytes ≤ g.MmapMaxBytes) :
    M - viewBytes s + viewBytes (unloadMmap g s os).s
      ≤ (unloadMmap g s os).g.mmapCurrentBytes ∧
    (unloadMmap g s os).g.mmapCurrentBytes ≤ g.MmapMaxBytes ∧
    (unloadMmap g s os).g.MmapMaxBytes = g.MmapMaxBytes := by
  have hsame : M - viewBytes s + viewBytes s ≤ g.mmapCurrentBytes := by omega
  cases hm : s.mm with
  | none =>
    rw [unloadMmap_of_unmapped g s os hm]
    exact ⟨hsame, hle, rfl⟩
  | some mm =>
    have hv : viewBytes s = s.mmSize := by simp [viewBytes, hm]
    have hv0 := viewBytes_unmapped s
    cases os with
    | none =>
      rw [unloadMmap_of_ok g s mm hm]
      have hsub : int64 (g.mmapCurrentBytes + int64 (-(int64 s.mmSize)))
          = g.mmapCurrentBytes - s.mmSize := by
        unfold int64
        omega
      refine ⟨?_, ?_, rfl⟩
      · show M - viewBytes s + viewBytes { s with mm := none }
          ≤ int64 (g.mmapCurrentBytes + int64 (-(int64 s.mmSize)))
        rw [hsub, hv0]
        omega
      · show int64 (g.mmapCurrentBytes + int64 (-(int64 s.mmSize))) ≤ g.MmapMaxBytes
        rw [hsub]
        omega
    | some e =>
      rw [unloadMmap_of_failed g s mm e hm]
      refine ⟨?_, hle, rfl⟩
      show M - viewBytes s + viewBytes { s with mm := none } ≤ g.mmapCurrentBytes
      rw [hv0]
      omega

theorem commit_within_max (w : World) (i : Nat) (s : Segment) (r : Ret) (B : Int)
    (hs : w.segs[i]? = some s)
    (hr : mappedBytes w.segs - viewBytes s + viewBytes r.s ≤ r.g.mmapCurrentBytes ∧
      r.g.mmapCurrentBytes ≤ B ∧ r.g.MmapMaxBytes = B) :
    (w.commit i r).1.g.MmapMaxBytes = B ∧
    mappedBytes (w.commit i r).1.segs ≤ (w.commit i r).1.g.mmapCurrentBytes ∧
    (w.commit i r).1.g.mmapCurrentBytes ≤ B := by
  simp only [World.commit, mappedBytes_set w.segs i s r.s hs]
  exact ⟨hr.2.2, hr.1, hr.2.1⟩

theorem mappedBytes_sub_viewBytes (l : List Segment) (i : Nat) (s : Segment)
    (hs : l[i]? = some s) (hnn : ∀ x ∈ l.map (fun t => t.mmSize), 0 ≤ x) :
    0 ≤ mappedBytes l - viewBytes s := by
  have hset := mappedBytes_set l i s { s with mm := none } hs
  have hsz := set_map_mmSize l i s { s with mm := none } hs rfl
  have hb := mappedBytes_bounds (l.set i { s with mm := none }) (by rw [hsz]; exact hnn)
  rw [hset, viewBytes_unmapped] at hb
  omega

theorem step_within_max (w : World) (c : Call) (B : Int) (hB : 0 < B)
    (hmax : w.g.MmapMaxBytes = B)
    (hlo : mappedBytes w.segs ≤ w.g.mmapCurrentBytes)
    (hle : w.g.mmapCurrentBytes ≤ B)
    (hsz : ∀ x ∈ w.segs.map (fun s => s.mmSize), 0 ≤ x ∧ B + x < 2 ^ 63)
    (hfix : ∀ b, c = .setMmapMaxBytes b → b = B) :
    (step w c).1.g.MmapMaxBytes = B ∧
    mappedBytes (step w c).1.segs ≤ (step w c).1.g.mmapCurrentBytes ∧
    (step w c).1.g.mmapCurrentBytes ≤ B := by
  have hnn : ∀ x ∈ w.segs.map (fun s => s.mmSize), 0 ≤ x := fun x hx => (hsz x hx).1
  have hseg : ∀ (i : Nat) (s : Segment), w.segs[i]? = some s →
      0 ≤ s.mmSize ∧ B + s.mmSize < 2 ^ 63 ∧ 0 ≤ mappedBytes w.segs - viewBytes s := by
    intro i s hs
    have hmem : s.mmSize ∈ w.segs.map (fun s => s.mmSize) := by
      simp only [List.mem_map]
      exact ⟨s, List.getElem?_mem hs, rfl⟩
    exact ⟨(hsz _ hmem).1, (hsz _ hmem).2, mappedBytes_sub_viewBytes w.segs i s hs hnn⟩
  cases c with
  | loadMmap i os =>
    rcases hs : w.segs[i]? with _ | s
    · simp only [step, hs]; exact ⟨hmax, hlo, hle⟩
    · obtain ⟨h1, h2, h3⟩ := hseg i s hs
      simp only [step, hs]
      have h := loadMmap_within_max w.g s os (mappedBytes w.segs) (by rw [hmax]; exact hB) h1
        (by rw [hmax]; exact h2) h3 hlo (by rw [hmax]; exact hle)
      rw [hmax] at h
      exact commit_within_max w i s _ B hs h
  | MmapHint i os =>
    rcases hs : w.segs[i]? with _ | s
    · simp only [step, hs]; exact ⟨hmax, hlo, hle⟩
    · obtain ⟨h1, h2, h3⟩ := hseg i s hs
      simp only [step, hs]
      have h := loadMmap_within_max w.g s os (mappedBytes w.segs) (by rw [hmax]; exact hB) h1
        (by rw [hmax]; exact h2) h3 hlo (by rw [hmax]; exact hle)
      rw [hmax] at h
      exact commit_within_max w i s _ B hs (by simpa only [MmapHint] using h)
  | unloadMmap i os =>
    rcases hs : w.segs[i]? with _ | s
    · simp only [step, hs]; exact ⟨hmax, hlo, hle⟩
    · obtain ⟨h1, h2, h3⟩ := hseg i s hs
      simp only [step, hs]
      have h := unloadMmap_within_max w.g s os (mappedBytes w.segs) h1
        (by rw [hmax]; omega) h3 hlo (by rw [hmax]; exact hle)
      rw [hmax] at h
      exact commit_within_max w i s _ B hs h
  | setMmapMaxBytes b =>
    simp only [step]
    exact ⟨hfix b rfl, hlo, hle⟩
  | setMmapIgnoreErrors b =>
    simp only [step]
    exact ⟨hmax, hlo, hle⟩

theorem run_within_max (w : World) (cs : List Call) (B : Int) (hB : 0 < B)
    (hmax : w.g.MmapMaxBytes = B)
    (hlo : mappedBytes w.segs ≤ w.g.mmapCurrentBytes)
    (hle : w.g.mmapCurrentBytes ≤ B)
    (hsz : ∀ x ∈ w.segs.map (fun s => s.mmSize), 0 ≤ x ∧ B + x < 2 ^ 63)
    (hfix : ∀ b, Call.setMmapMaxBytes b ∈ cs → b = B) :
    mappedBytes (run w cs).1.segs ≤ (run w cs).1.g.mmapCurrentBytes ∧
    (run w cs).1.g.mmapCurrentBytes ≤ B := by
  induction cs generalizing w with
  | nil => exact ⟨hlo, hle⟩
  | cons c cs ih =>
    have hstep := step_within_max w c B hB hmax hlo hle hsz
      (fun b hb => hfix b (by rw [hb]; exact List.mem_cons_self _ _))
    simp only [run]
    exact ih (step w c).1 hstep.1 hstep.2.1 hstep.2.2
      (by rw [step_sizes]; exact hsz)
      (fun b hb => hfix b (List.mem_cons_of_mem _ hb))

/-! ## The fallback read -/

theorem sectionLimit_of_start_stop (start stop : Nat) (h1 : start ≤ stop)
    (h2 : stop < 2 ^ 64) (hs : start < 2 ^ 63) :
    int64 (start : Int) = start ∧
    (stop < 2 ^ 63 →
      sectionLimit (int64 start) (int64 (((stop : Int) - start) % 2 ^ 64)) = stop) ∧
    (2 ^ 63 ≤ stop →
      sectionLimit (int64 start) (int64 (((stop : Int) - start) % 2 ^ 64)) = 2 ^ 63 - 1) := by
  have e1 : int64 (start : Int) = start := int64_of_isInt64 (by unfold isInt64; omega)
  refine ⟨e1, fun h => ?_, fun h => ?_⟩
  · rw [e1]
    unfold sectionLimit maxInt64 int64
    split <;> omega
  · rw [e1]
    unfold sectionLimit maxInt64 int64
    split <;> omega

theorem sectionLimit_of_large_start (start stop : Nat) (h1 : start ≤ stop)
    (h2 : stop < 2 ^ 64) (hs : 2 ^ 63 ≤ start) :
    int64 (start : Int) = (start : Int) - 2 ^ 64 ∧
    sectionLimit (int64 start) (int64 (((stop : Int) - start) % 2 ^ 64))
      = (stop : Int) - 2 ^ 64 := by
  have e1 : int64 (start : Int) = (start : Int) - 2 ^ 64 := by unfold int64; omega
  refine ⟨e1, ?_⟩
  rw [e1]
  unfold sectionLimit maxInt64 int64
  split <;> omega

theorem readAllSection_of_range (f : File) (fault : Option Nat) (off n : Int) (a : Nat)
    (hoff : 0 ≤ off) (hlim : sectionLimit off n - off = a) (ha : (a : Int) < 2 ^ 63) :
    readAllSection f fault off n
      = some (match fault with
        | none => (f.content.drop off.toNat).take a
        | some k => ((f.content.drop off.toNat).take a).take k) := by
  unfold readAllSection
  rw [hlim]
  by_cases hle : sectionLimit off n ≤ off
  · have ha0 : a = 0 := by omega
    rw [if_pos hle, ha0]
    cases fault <;> simp
  · have hpanic : ¬ (int64 (a : Int) < 0) := by
      rw [int64_of_isInt64 (by unfold isInt64; omega)]
      omega
    have hneg : ¬ (off < 0) := by omega
    rw [if_neg hle, if_neg hpanic, if_neg hneg, Int.toNat_ofNat]
    cases fault <;> rfl

theorem readAllSection_spec (f : File) (fault : Option Nat) (start stop : Nat)
    (h1 : start ≤ stop) (h2 : stop < 2 ^ 64) :
    ∃ a : Nat, a ≤ stop - start ∧
      (f.content.length < 2 ^ 63 →
        (f.content.drop start).take a = (f.content.drop start).take (stop - start)) ∧
      readAllSection f fault (int64 start) (int64 (((stop : Int) - start) % 2 ^ 64))
        = some (match fault with
          | none => (f.content.drop start).take a
          | some k => ((f.content.drop start).take a).take k) := by
  by_cases hs : start < 2 ^ 63
  · obtain ⟨e1, hlo, hhi⟩ := sectionLimit_of_start_stop start stop h1 h2 hs
    have hoff : (int64 (start : Int)).toNat = start := by rw [e1]; exact Int.toNat_ofNat start
    by_cases hst : stop < 2 ^ 63
    · refine ⟨stop - start, Nat.le_refl _, fun _ => rfl, ?_⟩
      have h := readAllSection_of_range f fault (int64 start)
        (int64 (((stop : Int) - start) % 2 ^ 64)) (stop - start)
        (by rw [e1]; omega) (by rw [hlo hst, e1]; omega) (by omega)
      rw [hoff] at h
      exact h
    · have hst2 : 2 ^ 63 ≤ stop := by omega
      refine ⟨2 ^ 63 - 1 - start, by omega, fun hlen => ?_, ?_⟩
      · rw [List.take_of_length_le (by simp only [List.length_drop]; omega),
          List.take_of_length_le (by simp only [List.length_drop]; omega)]
      · have h := readAllSection_of_range f fault (int64 start)
          (int64 (((stop : Int) - start) % 2 ^ 64)) (2 ^ 63 - 1 - start)
          (by rw [e1]; omega) (by rw [hhi hst2, e1]; omega) (by omega)
        rw [hoff] at h
        exact h
  · have hs2 : 2 ^ 63 ≤ start := by omega
    obtain ⟨e1, hlim⟩ := sectionLimit_of_large_start start stop h1 h2 hs2
    refine ⟨0, Nat.zero_le _, fun hlen => ?_, ?_⟩
    · rw [List.drop_eq_nil_of_le (by omega)]; simp
    · have hnil : readAllSection f fault (int64 start)
          (int64 (((stop : Int) - start) % 2 ^ 64)) = some [] := by
        unfold readAllSection
        rw [hlim, e1]
        by_cases hle : (stop : Int) - 2 ^ 64 ≤ (start : Int) - 2 ^ 64
        · rw [if_pos hle]
        · have hpanic : ¬ (int64 ((stop : Int) - 2 ^ 64 - ((start : Int) - 2 ^ 64)) < 0) := by
            unfold int64
            omega
          have hneg : (start : Int) - 2 ^ 64 < 0 := by omega
          rw [if_neg hle, if_neg hpanic, if_pos hneg]
      rw [hnil]
      cases fault <;> simp

/-! ## The claims -/

set_option maxRecDepth 8000

/-- C1, at a failing input. A load of the five-byte segment followed by an unload
whose OS unmap fails leaves `Stats().MmapCurrentBytes` at 5 while no segment has
a view, so the sum of `mmSize` over segments with a view is 0; a further load
takes the counter to 10 against 5 mapped bytes. `s.mm.Unmap()` has cleared the
view although the counter is lowered only when it returns nil. -/
theorem stats_ne_mappedBytes_after_failed_unmap :
    (Stats (run (initWorld false 0 oneFile) failedUnmapCalls).1.g).MmapCurrentBytes = 5 ∧
    mappedBytes (run (initWorld false 0 oneFile) failedUnmapCalls).1.segs = 0 ∧
    (Stats (run (initWorld false 0 oneFile) remapCalls).1.g).MmapCurrentBytes = 10 ∧
    mappedBytes (run (initWorld false 0 oneFile) remapCalls).1.segs = 5 := by
  decide

/-- C2, at a failing input. After a load and an unload whose OS unmap fails, the
segment has no view while one OS mapping created for it has not been successfully
unmapped; the next `loadMmap` maps again, leaving two such mappings for a segment
with one view. -/
theorem liveMappings_after_failed_unmap :
    (run (initWorld false 0 oneFile) failedUnmapCalls).1.segs[0]? = some segA ∧
    liveMappings 0 (run (initWorld false 0 oneFile) failedUnmapCalls).2 = 1 ∧
    (run (initWorld false 0 oneFile) remapCalls).1.segs[0]?
      = some { f := fileA, mm := some viewB, mmSize := 5 } ∧
    liveMappings 0 (run (initWorld false 0 oneFile) remapCalls).2 = 2 := by
  decide

/-- C3. Budget rejection is a silent no-op: with `MmapMaxBytes = B > 0` and
`mmapCurrentBytes + N > B` for a segment of size `N` (the sum as the gate forms
it in `int64`, which is the exact sum whenever that is an `int64` value),
`loadMmap` returns nil, makes no OS call and leaves the segment and the counter
unchanged; an Unmapped segment is left Unmapped. -/
theorem loadMmap_budget_rejection (g : Globals) (s : Segment) (osMap : MapResult)
    (hB : 0 < g.MmapMaxBytes)
    (hsum : g.MmapMaxBytes < int64 (g.mmapCurrentBytes + int64 s.mmSize) ∨
      (isInt64 (g.mmapCurrentBytes + s.mmSize) ∧
        g.MmapMaxBytes < g.mmapCurrentBytes + s.mmSize)) :
    loadMmap g s osMap = { err := none, g := g, s := s, os := none } ∧
    (s.mm = none → (loadMmap g s osMap).s.mm = none) := by
  have hgate : g.MmapMaxBytes < int64 (g.mmapCurrentBytes + int64 s.mmSize) := by
    rcases hsum with h | ⟨hr, h⟩
    · exact h
    · rw [int64_add_int64, int64_of_isInt64 hr]; exact h
  have hb : overBudget g s = true := by
    simp [overBudget, hB, hgate]
  rw [loadMmap_of_overBudget g s osMap hb]
  exact ⟨rfl, fun h => h⟩

/-- Instance of C3: with 3 bytes mapped and a maximum of 4, loading the five-byte
segment is rejected silently. -/
theorem loadMmap_budget_rejection_witness :
    loadMmap { mmapCurrentBytes := 3, MmapIgnoreErrors := false, MmapMaxBytes := 4 } segA
        (.ok viewA)
      = { err := none
          g := { mmapCurrentBytes := 3, MmapIgnoreErrors := false, MmapMaxBytes := 4 }
          s := segA, os := none } :=
  (loadMmap_budget_rejection
    { mmapCurrentBytes := 3, MmapIgnoreErrors := false, MmapMaxBytes := 4 } segA (.ok viewA)
    (by decide) (Or.inr (by decide))).1

/-- C4, at a failing input. On the mapped five-byte segment with the OS unmap
failing, `unloadMmap` returns the failure and leaves the counter at 5, but the
segment is left without its view: a following `readMM(1, 3)` goes to the file,
and with a failing device returns no bytes where the view held `[20, 30]`. -/
theorem unloadMmap_failed_unmap_clears_view :
    unloadMmap globalsFive segAMapped (some enomem)
      = { err := some enomem, g := globalsFive, s := segA
          os := some (.unmap viewA (some enomem)) } ∧
    (unloadMmap globalsFive segAMapped (some enomem)).s.mm = none ∧
    readMM (unloadMmap globalsFive segAMapped (some enomem)).s (some 0) 1 3 = some [] ∧
    readMM segAMapped (some 0) 1 3 = some [20, 30] := by
  decide

/-- C5. Mapping failure handling: `loadMmap` returns a failure exactly when the
budget gate admits the segment, the segment has no view, the OS map call fails and
`MmapIgnoreErrors` is false, and the failure returned is the OS one; with
`MmapIgnoreErrors` true it returns nil. Whenever the OS map outcome is a failure
the segment and the counter are unchanged, so an Unmapped segment stays Unmapped. -/
theorem loadMmap_failure_iff (g : Globals) (s : Segment) (osMap : MapResult) :
    (∀ e : GoError, (loadMmap g s osMap).err = some e ↔
      (overBudget g s = false ∧ s.mm = none ∧ osMap = .err e ∧
        g.MmapIgnoreErrors = false)) ∧
    (∀ e : GoError, (loadMmap g s osMap).err = some e →
      (loadMmap g s osMap).os = some (.map (.err e))) ∧
    (g.MmapIgnoreErrors = true → (loadMmap g s osMap).err = none) ∧
    (∀ e : GoError, osMap = .err e →
      (loadMmap g s osMap).s = s ∧ (loadMmap g s osMap).g = g) := by
  by_cases hb : overBudget g s = true
  · simp [loadMmap_of_overBudget g s osMap hb, hb]
  · have hb2 : overBudget g s = false := by simpa using hb
    cases hm : s.mm with
    | some mm => simp [loadMmap_of_mapped g s osMap (by simp [hm])]
    | none =>
      cases osMap with
      | ok mm => simp [loadMmap_of_ok g s mm hb2 hm]
      | err e0 =>
        rw [loadMmap_of_err g s e0 hb2 hm]
        by_cases hi : g.MmapIgnoreErrors = true
        · simp [hi, hb2]
        · simp [hi, hb2]

/-- Instance of C5: a failing OS map is returned when errors are not ignored and
swallowed when they are; the segment stays Unmapped and the counter stays 0. -/
theorem loadMmap_failure_iff_witness :
    (loadMmap globals0 segA (.err enomem)).err = some enomem ∧
    (loadMmap { globals0 with MmapIgnoreErrors := true } segA (.err enomem)).err = none ∧
    (loadMmap globals0 segA (.err enomem)).s = segA ∧
    (loadMmap globals0 segA (.err enomem)).g = globals0 :=
  ⟨((loadMmap_failure_iff globals0 segA (.err enomem)).1 enomem).2
      ⟨by decide, rfl, rfl, rfl⟩,
   (loadMmap_failure_iff { globals0 with MmapIgnoreErrors := true } segA
      (.err enomem)).2.2.1 rfl,
   ((loadMmap_failure_iff globals0 segA (.err enomem)).2.2.2 enomem rfl).1,
   ((loadMmap_failure_iff globals0 segA (.err enomem)).2.2.2 enomem rfl).2⟩

/-- C6, as stated, fails. With no view, no maximum and errors reported, two
`loadMmap` calls whose OS map fails: the second returns the failure, not nil.
With errors ignored, a failed map followed by a successful one: the second call
installs a view the first did not leave and raises the counter from 0 to 5. -/
theorem loadMmap_twice_counterexample :
    (loadMmap (loadMmap globals0 segA (.err enomem)).g
        (loadMmap globals0 segA (.err enomem)).s (.err enomem)).err = some enomem ∧
    (loadMmap { globals0 with MmapIgnoreErrors := true } segA (.err enomem)).s.mm = none ∧
    (loadMmap { globals0 with MmapIgnoreErrors := true } segA (.err enomem)).g.mmapCurrentBytes
      = 0 ∧
    (loadMmap (loadMmap { globals0 with MmapIgnoreErrors := true } segA (.err enomem)).g
        (loadMmap { globals0 with MmapIgnoreErrors := true } segA (.err enomem)).s
        (.ok viewA)).s.mm = some viewA ∧
    (loadMmap (loadMmap { globals0 with MmapIgnoreErrors := true } segA (.err enomem)).g
        (loadMmap { globals0 with MmapIgnoreErrors := true } segA (.err enomem)).s
        (.ok viewA)).g.mmapCurrentBytes = 5 := by
  decide

/-- C6, amended. If the segment has a view after a first `loadMmap` (that call
mapped it, or it was mapped already), a second `loadMmap`, under any values `g2`
of the package variables, returns nil, makes no OS call and leaves the view and
the counter unchanged. If the first call left the segment Unmapped, the second
is a fresh attempt: it returns a failure exactly when the gate admits the
segment, the OS map fails and `MmapIgnoreErrors` is false; it installs a view
exactly when the gate admits the segment and the OS map succeeds, and then it
returns nil after one OS call with `mmSize` added to the counter (in `int64`,
which is the exact sum whenever that is an `int64` value); otherwise it leaves
the counter unchanged. -/
theorem loadMmap_twice (g : Globals) (s : Segment) (os1 os2 : MapResult) (g2 : Globals) :
    ((loadMmap g s os1).s.mm.isSome = true →
      loadMmap g2 (loadMmap g s os1).s os2
        = { err := none, g := g2, s := (loadMmap g s os1).s, os := none }) ∧
    ((loadMmap g s os1).s.mm = none →
      (∀ e : GoError, (loadMmap g2 (loadMmap g s os1).s os2).err = some e ↔
        (overBudget g2 (loadMmap g s os1).s = false ∧ os2 = .err e ∧
          g2.MmapIgnoreErrors = false)) ∧
      ((loadMmap g2 (loadMmap g s os1).s os2).s.mm.isSome = true ↔
        (overBudget g2 (loadMmap g s os1).s = false ∧ ∃ mm, os2 = .ok mm)) ∧
      ((loadMmap g2 (loadMmap g s os1).s os2).s.mm = none →
        (loadMmap g2 (loadMmap g s os1).s os2).g = g2) ∧
      (∀ mm : MMap, overBudget g2 (loadMmap g s os1).s = false → os2 = .ok mm →
        loadMmap g2 (loadMmap g s os1).s os2
          = { err := none
              g := { g2 with
                mmapCurrentBytes := int64 (g2.mmapCurrentBytes + int64 s.mmSize) }
              s := { (loadMmap g s os1).s with mm := some mm }
              os := some (.map (.ok mm)) } ∧
        (loadMmap g2 (loadMmap g s os1).s os2).g.mmapCurrentBytes
          = int64 (g2.mmapCurrentBytes + s.mmSize) ∧
        (isInt64 (g2.mmapCurrentBytes + s.mmSize) →
          (loadMmap g2 (loadMmap g s os1).s os2).g.mmapCurrentBytes
            = g2.mmapCurrentBytes + s.mmSize))) := by
  have hsz := loadMmap_mmSize g s os1
  generalize (loadMmap g s os1).s = t at hsz ⊢
  refine ⟨fun h => loadMmap_of_mapped g2 t os2 h, fun hm => ?_⟩
  have hfresh : ∀ mm : MMap, overBudget g2 t = false → os2 = .ok mm →
      loadMmap g2 t os2
        = { err := none
            g := { g2 with mmapCurrentBytes := int64 (g2.mmapCurrentBytes + int64 s.mmSize) }
            s := { t with mm := some mm }
            os := some (.map (.ok mm)) } ∧
      (loadMmap g2 t os2).g.mmapCurrentBytes = int64 (g2.mmapCurrentBytes + s.mmSize) ∧
      (isInt64 (g2.mmapCurrentBytes + s.mmSize) →
        (loadMmap g2 t os2).g.mmapCurrentBytes = g2.mmapCurrentBytes + s.mmSize) := by
    intro mm hb hok
    subst hok
    rw [loadMmap_of_ok g2 t mm hb hm, hsz]
    refine ⟨rfl, int64_add_int64 _ _, fun hr => ?_⟩
    show int64 (g2.mmapCurrentBytes + int64 s.mmSize) = g2.mmapCurrentBytes + s.mmSize
    rw [int64_add_int64, int64_of_isInt64 hr]
  refine ⟨?_, ?_, ?_, hfresh⟩
  · intro e
    by_cases hb : overBudget g2 t = true
    · simp [loadMmap_of_overBudget g2 t os2 hb, hb]
    · have hb2 : overBudget g2 t = false := by simpa using hb
      cases os2 with
      | ok mm => simp [loadMmap_of_ok g2 t mm hb2 hm]
      | err e0 =>
        rw [loadMmap_of_err g2 t e0 hb2 hm]
        by_cases hi : g2.MmapIgnoreErrors = true <;> simp [hi, hb2]
  · by_cases hb : overBudget g2 t = true
    · simp [loadMmap_of_overBudget g2 t os2 hb, hb, hm]
    · have hb2 : overBudget g2 t = false := by simpa using hb
      cases os2 with
      | ok mm => simp [loadMmap_of_ok g2 t mm hb2 hm, hb2]
      | err e0 =>
        rw [loadMmap_of_err g2 t e0 hb2 hm]
        simp [hb2, hm]
  · by_cases hb : overBudget g2 t = true
    · simp [loadMmap_of_overBudget g2 t os2 hb]
    · have hb2 : overBudget g2 t = false := by simpa using hb
      cases os2 with
      | ok mm => simp [loadMmap_of_ok g2 t mm hb2 hm]
      | err e0 =>
        rw [loadMmap_of_err g2 t e0 hb2 hm]
        simp

/-- Instance of amended C6: the first call maps the five-byte segment; the second
call, offered another view, keeps the first and the counter stays 5. After a
first call whose OS map fails and is ignored, the second call maps the segment
and the counter goes from 0 to 5. -/
theorem loadMmap_twice_witness :
    (loadMmap globals0 segA (.ok viewA)).s.mm = some viewA ∧
    loadMmap (loadMmap globals0 segA (.ok viewA)).g (loadMmap globals0 segA (.ok viewA)).s
        (.ok viewB)
      = { err := none, g := globalsFive, s := segAMapped, os := none } ∧
    (loadMmap { globals0 with MmapIgnoreErrors := true }
        (loadMmap { globals0 with MmapIgnoreErrors := true } segA (.err enomem)).s
        (.ok viewA)).g.mmapCurrentBytes = 0 + 5 :=
  ⟨by decide,
   ((loadMmap_twice globals0 segA (.ok viewA) (.ok viewB)
      (loadMmap globals0 segA (.ok viewA)).g).1 (by decide)).trans (by decide),
   ((loadMmap_twice { globals0 with MmapIgnoreErrors := true } segA (.err enomem) (.ok viewA)
      { globals0 with MmapIgnoreErrors := true }).2 (by decide)).2.2.2 viewA
        (by decide) rfl |>.2.2 (by decide)⟩

/-- C7. `unloadMmap` on an Unmapped segment is a no-op: it returns nil, makes no OS
call and leaves the segment and the counter unchanged. Hence after an `unloadMmap`
that returned nil, a second `unloadMmap` returns nil, makes no OS call and leaves
the state as the first left it. -/
theorem unloadMmap_unmapped_noop (g : Globals) (s : Segment) (os1 os2 : Option GoError) :
    (s.mm = none → unloadMmap g s os1 = { err := none, g := g, s := s, os := none }) ∧
    ((unloadMmap g s os1).err = none →
      unloadMmap (unloadMmap g s os1).g (unloadMmap g s os1).s os2
        = { err := none, g := (unloadMmap g s os1).g, s := (unloadMmap g s os1).s
            os := none }) := by
  refine ⟨fun h => unloadMmap_of_unmapped g s os1 h, fun h => ?_⟩
  apply unloadMmap_of_unmapped
  revert h
  unfold unloadMmap
  cases hm : s.mm with
  | none => simp [hm]
  | some mm =>
    cases os1 with
    | none => simp
    | some e => simp

/-- Instance of C7: unloading the Unmapped segment, and unloading the mapped
segment twice. -/
theorem unloadMmap_unmapped_noop_witness :
    unloadMmap globals0 segA (some enomem)
      = { err := none, g := globals0, s := segA, os := none } ∧
    unloadMmap (unloadMmap { globals0 with mmapCurrentBytes := 5 } segAMapped none).g
        (unloadMmap { globals0 with mmapCurrentBytes := 5 } segAMapped none).s (some enomem)
      = { err := none, g := globals0, s := segA, os := none } :=
  ⟨(unloadMmap_unmapped_noop globals0 segA (some enomem) none).1 rfl,
   ((unloadMmap_unmapped_noop { globals0 with mmapCurrentBytes := 5 } segAMapped none
      (some enomem)).2 (by decide)).trans (by decide)⟩

/-- C8. Mapped and fallback reads agree: for a file whose length is an `int64`
value and `start ≤ end ≤ length`, `readMM(start, end)` on the segment whose view
holds the bytes of the file equals `readMM(start, end)` on the segment without a
view when the positioned read succeeds; both are the bytes of the file at
`[start, end)`, of length `end - start`. -/
theorem readMM_mapped_eq_fallback (content : List Byte) (addr : Nat) (mmSize : Int)
    (fault : Option Nat) (start stop : Nat)
    (hsize : content.length < 2 ^ 63) (h1 : start ≤ stop) (h2 : stop ≤ content.length) :
    readMM { f := { content := content }, mm := some { addr := addr, data := content },
             mmSize := mmSize } fault start stop
      = readMM { f := { content := content }, mm := none, mmSize := mmSize } none start stop ∧
    readMM { f := { content := content }, mm := none, mmSize := mmSize } none start stop
      = some ((content.take stop).drop start) ∧
    ((content.take stop).drop start).length = stop - start := by
  have e1 : int64 (start : Int) = start := int64_of_isInt64 (by unfold isInt64; omega)
  have e3 := (sectionLimit_of_start_stop start stop h1 (by omega) (by omega)).2.1 (by omega)
  have hread := readAllSection_of_range { content := content } none (int64 start)
    (int64 (((stop : Int) - start) % 2 ^ 64)) (stop - start)
    (by rw [e1]; omega) (by rw [e3, e1]; omega) (by omega)
  have hfall : readMM { f := { content := content }, mm := none, mmSize := mmSize } none
      start stop = some ((content.take stop).drop start) := by
    simp only [readMM]
    rw [hread, e1, Int.toNat_ofNat, List.drop_take]
  refine ⟨?_, hfall, ?_⟩
  · rw [hfall]
    simp [readMM, sliceRange, h1, h2]
  · simp [List.length_drop, List.length_take]
    omega

/-- Instance of C8: bytes `[1, 4)` of the five-byte file, mapped and unmapped. -/
theorem readMM_mapped_eq_fallback_witness :
    readMM segAMapped none 1 4 = readMM segA none 1 4 ∧
    readMM segA none 1 4 = some [20, 30, 40] :=
  ⟨(readMM_mapped_eq_fallback [10, 20, 30, 40, 50] 4096 5 none 1 4
      (by decide) (by decide) (by decide)).1,
   (readMM_mapped_eq_fallback [10, 20, 30, 40, 50] 4096 5 none 1 4
      (by decide) (by decide) (by decide)).2.1⟩

/-- C9. Successful load transition: on an Unmapped segment that passes the budget
gate, when the OS map succeeds with `mm`, `loadMmap` returns nil after exactly one
OS call, the view of the segment is `mm`, and the counter has grown by `mmSize`
(by `int64` addition, which is the exact sum whenever that is an `int64` value). -/
theorem loadMmap_success (g : Globals) (s : Segment) (mm : MMap)
    (hs : s.mm = none) (hb : overBudget g s = false) :
    loadMmap g s (.ok mm) =
      { err := none
        g := { g with mmapCurrentBytes := int64 (g.mmapCurrentBytes + int64 s.mmSize) }
        s := { s with mm := some mm }
        os := some (.map (.ok mm)) } ∧
    (loadMmap g s (.ok mm)).s.mm = some mm ∧
    (loadMmap g s (.ok mm)).g.mmapCurrentBytes = int64 (g.mmapCurrentBytes + s.mmSize) ∧
    (isInt64 (g.mmapCurrentBytes + s.mmSize) →
      (loadMmap g s (.ok mm)).g.mmapCurrentBytes = g.mmapCurrentBytes + s.mmSize) := by
  rw [loadMmap_of_ok g s mm hb hs]
  refine ⟨rfl, rfl, int64_add_int64 _ _, fun h => ?_⟩
  simp only [int64_add_int64, int64_of_isInt64 h]

/-- Instance of C9: loading the five-byte segment with 3 bytes already mapped and a
maximum of 8. -/
theorem loadMmap_success_witness :
    (loadMmap { mmapCurrentBytes := 3, MmapIgnoreErrors := false, MmapMaxBytes := 8 } segA
        (.ok viewA)).g.mmapCurrentBytes = 3 + 5 ∧
    (loadMmap { mmapCurrentBytes := 3, MmapIgnoreErrors := false, MmapMaxBytes := 8 } segA
        (.ok viewA)).s.mm = some viewA :=
  ⟨(loadMmap_success { mmapCurrentBytes := 3, MmapIgnoreErrors := false, MmapMaxBytes := 8 }
      segA viewA rfl (by decide)).2.2.2 (by decide),
   (loadMmap_success { mmapCurrentBytes := 3, MmapIgnoreErrors := false, MmapMaxBytes := 8 }
      segA viewA rfl (by decide)).2.1⟩

/-- C10. Load/unload round trip: on an Unmapped segment with counter `c`, a
`loadMmap` that maps the segment followed by an `unloadMmap` whose OS unmap
succeeds both return nil and leave the segment Unmapped and the counter equal to
`c`; repeating the pair any number of times, whatever views the OS hands out,
gives the same state with every call returning nil. -/
theorem loadUnload_roundtrip (g : Globals) (s : Segment) (mm : MMap)
    (hs : s.mm = none) (hc : isInt64 g.mmapCurrentBytes) (hb : overBudget g s = false) :
    (loadMmap g s (.ok mm)).err = none ∧
    (loadMmap g s (.ok mm)).s.mm = some mm ∧
    loadUnload g s mm = { err := none, g := g, s := s, os := some (.unmap mm none) } ∧
    (∀ views : List MMap, loadUnloadAll g s views = (g, s, true)) := by
  have hload := loadMmap_of_ok g s mm hb hs
  have hround : ∀ v : MMap,
      loadUnload g s v = { err := none, g := g, s := s, os := some (.unmap v none) } := by
    intro v
    have hcnt : int64 (int64 (g.mmapCurrentBytes + int64 s.mmSize) + int64 (-(int64 s.mmSize)))
        = g.mmapCurrentBytes := by
      unfold isInt64 at hc
      unfold int64
      omega
    cases s with
    | mk f m n =>
      cases g with
      | mk c ig mx =>
        simp only at hs hcnt
        subst hs
        simp only [loadUnload, loadMmap_of_ok _ _ v hb rfl, unloadMmap, hcnt]
  refine ⟨by rw [hload], by rw [hload], hround mm, fun views => ?_⟩
  induction views with
  | nil => rfl
  | cons v vs ih =>
    simp only [loadUnloadAll, hround v, ih, loadMmap_of_ok g s v hb hs]
    rfl

/-- Instance of C10: two load/unload cycles of the five-byte segment from counter
3 return to counter 3 with the segment Unmapped. -/
theorem loadUnload_roundtrip_witness :
    loadUnloadAll { mmapCurrentBytes := 3, MmapIgnoreErrors := false, MmapMaxBytes := 8 }
        segA [viewA, viewB]
      = ({ mmapCurrentBytes := 3, MmapIgnoreErrors := false, MmapMaxBytes := 8 }, segA, true) :=
  (loadUnload_roundtrip { mmapCurrentBytes := 3, MmapIgnoreErrors := false, MmapMaxBytes := 8 }
    segA viewA rfl (by decide) (by decide)).2.2.2 [viewA, viewB]

/-- C11, as stated, fails. With `MmapMaxBytes = -1`, which is not 0, one load of
the five-byte segment leaves the counter at 5, above -1: the gate only acts on a
maximum greater than 0. With `MmapMaxBytes = 10` and segments of sizes 5 and
`2^63 - 5`, the `int64` sum in the gate wraps, both are admitted, and after
unloading the first the counter is `2^63 - 5`, above 10. -/
theorem counter_le_max_counterexample :
    ¬ ((Stats (run (initWorld false (-1) [(fileA, 5)])
        [.loadMmap 0 (.ok viewA)]).1.g).MmapCurrentBytes ≤ -1) ∧
    ¬ ((Stats (run (initWorld false 10 [(fileA, 5), (fileB, 2 ^ 63 - 5)])
        [.loadMmap 0 (.ok viewA), .loadMmap 1 (.ok viewB),
         .unloadMmap 0 none]).1.g).MmapCurrentBytes ≤ 10) := by
  decide

/-- C11, amended. With `MmapMaxBytes` fixed at a value `B > 0` throughout and every
segment size `n` non-negative with `B + n < 2^63` (so that the `int64` sum in the
gate does not wrap), starting from all segments Unmapped and counter 0, after
every sequence of calls, with any outcome of each OS map and unmap call, the
counter is at most `B`, and the sizes of the segments that have a view sum to at
most the counter. -/
theorem counter_le_max (ignoreErrors : Bool) (B : Int) (files : List (File × Int))
    (calls : List Call) (hB : 0 < B)
    (hsz : ∀ p ∈ files, 0 ≤ p.2 ∧ B + p.2 < 2 ^ 63)
    (hfix : ∀ b, Call.setMmapMaxBytes b ∈ calls → b = B) :
    (Stats (run (initWorld ignoreErrors B files) calls).1.g).MmapCurrentBytes ≤ B ∧
    mappedBytes (run (initWorld ignoreErrors B files) calls).1.segs
      ≤ (Stats (run (initWorld ignoreErrors B files) calls).1.g).MmapCurrentBytes := by
  have hsz' : ∀ x ∈ (initWorld ignoreErrors B files).segs.map (fun s => s.mmSize),
      0 ≤ x ∧ B + x < 2 ^ 63 := by
    rw [initWorld_sizes]
    intro x hx
    simp only [List.mem_map] at hx
    obtain ⟨p, hp, rfl⟩ := hx
    exact hsz p hp
  have hlo : mappedBytes (initWorld ignoreErrors B files).segs
      ≤ (initWorld ignoreErrors B files).g.mmapCurrentBytes := by
    rw [initWorld_mappedBytes]
    exact Int.le_refl 0
  have hle : (initWorld ignoreErrors B files).g.mmapCurrentBytes ≤ B := Int.le_of_lt hB
  have h := run_within_max (initWorld ignoreErrors B files) calls B hB rfl hlo hle hsz' hfix
  exact ⟨h.2, h.1⟩

/-- Instance of amended C11: two segments of 5 and 3 bytes under a maximum of 6;
the first is loaded and its unmap fails, the load of the second is rejected, and
the counter stays at 5. -/
theorem counter_le_max_witness :
    (Stats (run (initWorld false 6 twoFiles)
      [.loadMmap 0 (.ok viewA), .unloadMmap 0 (some enomem),
       .loadMmap 1 (.ok viewB)]).1.g).MmapCurrentBytes ≤ 6 ∧
    (Stats (run (initWorld false 6 twoFiles)
      [.loadMmap 0 (.ok viewA), .unloadMmap 0 (some enomem),
       .loadMmap 1 (.ok viewB)]).1.g).MmapCurrentBytes = 5 :=
  ⟨(counter_le_max false 6 twoFiles
      [.loadMmap 0 (.ok viewA), .unloadMmap 0 (some enomem), .loadMmap 1 (.ok viewB)]
      (by decide) (by decide) (fun b hb => by simp at hb)).1,
   by decide⟩

/-- C12, as stated, fails. With `MmapMaxBytes = -1` (not 0), counter 0 and size 5
the exact sum 5 exceeds the maximum, yet the gate does not reject. With
`MmapMaxBytes = 10`, counter 5 and size `2^63 - 5`, all `int64` values, the exact
sum `2^63` exceeds the maximum, yet the gate does not reject. -/
theorem overBudget_counterexample :
    (overBudget { mmapCurrentBytes := 0, MmapIgnoreErrors := false, MmapMaxBytes := -1 } segA
        = false ∧
      (-1 : Int) ≠ 0 ∧ (0 : Int) + segA.mmSize > -1) ∧
    (overBudget { mmapCurrentBytes := 5, MmapIgnoreErrors := false, MmapMaxBytes := 10 }
        segHuge = false ∧
      isInt64 5 ∧ isInt64 segHuge.mmSize ∧ isInt64 10 ∧
      (10 : Int) ≠ 0 ∧ (5 : Int) + segHuge.mmSize > 10) := by
  decide

/-- C12, amended. The budget gate at the head of `loadMmap` rejects exactly when
`MmapMaxBytes` is greater than 0 (zero and negative values mean unlimited) and
`counter + n > MmapMaxBytes` with the sum formed in `int64`; when the exact sum
`counter + n` is an `int64` value, that is the exact sum. A rejected `loadMmap`
returns nil at once with no OS call and no change of state. -/
theorem overBudget_iff (g : Globals) (s : Segment) :
    (overBudget g s = true ↔
      (0 < g.MmapMaxBytes ∧ g.MmapMaxBytes < int64 (g.mmapCurrentBytes + int64 s.mmSize))) ∧
    (isInt64 (g.mmapCurrentBytes + s.mmSize) →
      (overBudget g s = true ↔
        (0 < g.MmapMaxBytes ∧ g.MmapMaxBytes < g.mmapCurrentBytes + s.mmSize))) ∧
    (overBudget g s = true →
      ∀ osMap, loadMmap g s osMap = { err := none, g := g, s := s, os := none }) := by
  have h1 : overBudget g s = true ↔
      (0 < g.MmapMaxBytes ∧ g.MmapMaxBytes < int64 (g.mmapCurrentBytes + int64 s.mmSize)) := by
    simp [overBudget]
  refine ⟨h1, fun hr => ?_, fun hb osMap => loadMmap_of_overBudget g s osMap hb⟩
  rw [h1, int64_add_int64, int64_of_isInt64 hr]

/-- Instance of amended C12: counter 3, size 5, maximum 4 is rejected; maximum 8
is admitted. -/
theorem overBudget_iff_witness :
    overBudget { mmapCurrentBytes := 3, MmapIgnoreErrors := false, MmapMaxBytes := 4 } segA
      = true ∧
    ¬ (overBudget { mmapCurrentBytes := 3, MmapIgnoreErrors := false, MmapMaxBytes := 8 } segA
      = true) :=
  ⟨((overBudget_iff { mmapCurrentBytes := 3, MmapIgnoreErrors := false, MmapMaxBytes := 4 }
      segA).2.1 (by decide)).2 (by decide),
   fun h => absurd
    (((overBudget_iff { mmapCurrentBytes := 3, MmapIgnoreErrors := false, MmapMaxBytes := 8 }
      segA).2.1 (by decide)).1 h).2 (by decide)⟩

/-- C13. No eviction: `loadMmap` on segment `i` leaves every other segment as it
was; a segment that has a view, the loaded one included, keeps that view. The
counter is either unchanged or has had the `mmSize` of segment `i` added to it in
`int64`; `loadMmap` never subtracts, so for a non-negative `mmSize` whose sum with
the counter is an `int64` value the counter does not decrease. -/
theorem loadMmap_no_eviction (w : World) (i j : Nat) (osMap : MapResult) :
    (j ≠ i → (step w (.loadMmap i osMap)).1.segs[j]? = w.segs[j]?) ∧
    (∀ t : Segment, w.segs[j]? = some t → t.mm.isSome = true →
      ∃ t' : Segment, (step w (.loadMmap i osMap)).1.segs[j]? = some t' ∧ t'.mm = t.mm) ∧
    ((step w (.loadMmap i osMap)).1.g.mmapCurrentBytes = w.g.mmapCurrentBytes ∨
      ∃ s : Segment, w.segs[i]? = some s ∧ s.mm = none ∧
        (step w (.loadMmap i osMap)).1.g.mmapCurrentBytes
          = int64 (w.g.mmapCurrentBytes + s.mmSize)) ∧
    (∀ s : Segment, w.segs[i]? = some s → 0 ≤ s.mmSize →
      isInt64 (w.g.mmapCurrentBytes + s.mmSize) →
      w.g.mmapCurrentBytes ≤ (step w (.loadMmap i osMap)).1.g.mmapCurrentBytes) ∧
    (w.segs[i]? = none → (step w (.loadMmap i osMap)).1 = w) := by
  rcases hs : w.segs[i]? with _ | s
  · have hstep : step w (.loadMmap i osMap) = (w, []) := by simp only [step, hs]
    rw [hstep]
    refine ⟨fun _ => rfl, fun t ht _ => ⟨t, ht, rfl⟩, Or.inl rfl, ?_, fun _ => rfl⟩
    intro s h
    cases h
  · have hlt : i < w.segs.length := by
      rcases Nat.lt_or_ge i w.segs.length with h | h
      · exact h
      · rw [List.getElem?_eq_none h] at hs; cases hs
    have hview : s.mm.isSome = true → (loadMmap w.g s osMap).s.mm = s.mm := by
      intro h
      rw [loadMmap_of_mapped w.g s osMap h]
    have hcnt : (loadMmap w.g s osMap).g.mmapCurrentBytes = w.g.mmapCurrentBytes ∨
        (s.mm = none ∧ (loadMmap w.g s osMap).g.mmapCurrentBytes
          = int64 (w.g.mmapCurrentBytes + s.mmSize)) := by
      by_cases hb : overBudget w.g s = true
      · rw [loadMmap_of_overBudget w.g s osMap hb]; exact Or.inl rfl
      · have hb2 : overBudget w.g s = false := by simpa using hb
        cases hm : s.mm with
        | some mm =>
          rw [loadMmap_of_mapped w.g s osMap (by simp [hm])]; exact Or.inl rfl
        | none =>
          cases osMap with
          | ok mm =>
            rw [loadMmap_of_ok w.g s mm hb2 hm]
            exact Or.inr ⟨rfl, int64_add_int64 _ _⟩
          | err e =>
            rw [loadMmap_of_err w.g s e hb2 hm]; exact Or.inl rfl
    simp only [step, hs, World.commit]
    refine ⟨fun hji => ?_, fun t ht hmm => ?_, ?_, fun s' hs' hn hr => ?_, fun h => ?_⟩
    · rw [List.getElem?_set_ne (Ne.symm hji)]
    · by_cases hji : j = i
      · subst hji
        rw [hs] at ht
        cases ht
        refine ⟨(loadMmap w.g s osMap).s, ?_, hview hmm⟩
        simp [List.getElem?_set, hlt]
      · exact ⟨t, by rw [List.getElem?_set_ne (Ne.symm hji)]; exact ht, rfl⟩
    · rcases hcnt with h | ⟨hm, h⟩
      · exact Or.inl h
      · exact Or.inr ⟨s, rfl, hm, h⟩
    · cases hs'
      rcases hcnt with h | ⟨_, h⟩
      · rw [h]
      · rw [h, int64_of_isInt64 hr]
        omega
    · cases h

/-- Instance of C13: with the maximum of 4 already exceeded by the mapped
three-byte segment 1, loading segment 0 leaves segment 1 mapped and the counter
at 3. -/
theorem loadMmap_no_eviction_witness :
    (step worldFull (.loadMmap 0 (.ok viewA))).1.segs[1]? = some segBMapped ∧
    (3 : Int) ≤ (step worldFull (.loadMmap 0 (.ok viewA))).1.g.mmapCurrentBytes :=
  ⟨(loadMmap_no_eviction worldFull 0 1 (.ok viewA)).1 (by decide),
   (loadMmap_no_eviction worldFull 0 1 (.ok viewA)).2.2.2.1 segA rfl (by decide) (by decide)⟩

/-- C14. Delegated reads: with an `mmapOwner` attached, `readMem(start, end)` is
the result of the owner's `readMM(start, end)` with the same arguments, whatever
the segment's own bytes are; when the owner is a `Segment` that is
`Segment.readMM`. With no owner attached and `start ≤ end ≤ len(mem)` it is the
`[start, end)` slice of the segment's own bytes. -/
theorem readMem_delegates (s : SegmentBase) (start stop : Nat) :
    (∀ owner : mmapOwner, s.mmapOwner = some owner →
      readMem s start stop = owner.readMM start stop ∧
      ∀ mem : ByteSlice, readMem { s with mem := mem } start stop
        = owner.readMM start stop) ∧
    (∀ (seg : Segment) (fault : Option Nat), s.mmapOwner = some (seg.asOwner fault) →
      readMem s start stop = readMM seg fault start stop) ∧
    (s.mmapOwner = none → s.mem.len ≤ s.mem.backing.length → start ≤ stop →
      stop ≤ s.mem.len →
      readMem s start stop
        = some (((s.mem.backing.take s.mem.len).take stop).drop start)) := by
  refine ⟨fun owner h => ?_, fun seg fault h => ?_, fun h hcap h1 h2 => ?_⟩
  · simp [readMem, h]
  · simp [readMem, h, Segment.asOwner]
  · have hstop : stop ≤ s.mem.backing.length := Nat.le_trans h2 hcap
    simp [readMem, h, sliceRange, h1, hstop, List.take_take, Nat.min_eq_left h2]

/-- Instance of C14: a read delegated to the mapped five-byte segment, and a read
of a segment base's own bytes. -/
theorem readMem_delegates_witness :
    readMem { mem := memA, mmapOwner := some (segAMapped.asOwner none) } 1 3
      = readMM segAMapped none 1 3 ∧
    readMem { mem := memA, mmapOwner := none } 1 3 = some [2, 3] :=
  ⟨(readMem_delegates { mem := memA, mmapOwner := some (segAMapped.asOwner none) } 1 3).2.1
      segAMapped none rfl,
   ((readMem_delegates { mem := memA, mmapOwner := none } 1 3).2.2 rfl
      (by decide) (by decide) (by decide)).trans (by decide)⟩

/-- C15. `MmapHint` is `loadMmap` with the error discarded: it leaves the package
variables and the segment as `loadMmap` does, makes the same OS call, and reports
nothing; as a step on the process state it equals the `loadMmap` step. It
reports no failure where `loadMmap` returns one. -/
theorem MmapHint_eq_loadMmap (g : Globals) (s : Segment) (osMap : MapResult) (w : World)
    (i : Nat) :
    (MmapHint g s osMap).g = (loadMmap g s osMap).g ∧
    (MmapHint g s osMap).s = (loadMmap g s osMap).s ∧
    (MmapHint g s osMap).os = (loadMmap g s osMap).os ∧
    (MmapHint g s osMap).err = none ∧
    step w (.MmapHint i osMap) = step w (.loadMmap i osMap) ∧
    ((loadMmap globals0 segA (.err enomem)).err = some enomem ∧
      (MmapHint globals0 segA (.err enomem)).err = none) := by
  refine ⟨rfl, rfl, rfl, rfl, ?_, by decide, rfl⟩
  rcases hs : w.segs[i]? with _ | t
  · simp only [step, hs]
  · simp only [step, hs, World.commit, MmapHint]

/-- C17. Fallback read failures are swallowed: on a segment with no view, for
`uint64` arguments `start ≤ end`, `readMM(start, end)` returns a byte sequence and
no failure, whatever the outcome of the positioned read. The bytes returned are
an initial part of the bytes of the file at `[start, end)`, so at most
`end - start` bytes; for a file whose length is an `int64` value they are all of
those bytes when the read does not fail, and the first `k` of them when the
device fails after `k` bytes. The segment and the counter are as before the
read. -/
theorem readMM_fallback_swallows (g : Globals) (s : Segment) (fault : Option Nat)
    (start stop : Nat) (hs : s.mm = none) (h1 : start ≤ stop) (h2 : stop < 2 ^ 64) :
    ∃ data : List Byte,
      (readMMCall g s fault start stop).data = some data ∧
      (∃ rest : List Byte, (s.f.content.take stop).drop start = data ++ rest) ∧
      data.length ≤ stop - start ∧
      (s.f.content.length < 2 ^ 63 →
        data = match fault with
          | none => (s.f.content.take stop).drop start
          | some k => ((s.f.content.take stop).drop start).take k) ∧
      (readMMCall g s fault start stop).s = s ∧
      (readMMCall g s fault start stop).g = g := by
  obtain ⟨a, ha, hfull, hread⟩ := readAllSection_spec s.f fault start stop h1 h2
  have htarget : (s.f.content.take stop).drop start
      = (s.f.content.drop start).take (stop - start) := by
    rw [List.drop_take]
  have hsplit : (s.f.content.drop start).take (stop - start)
      = (s.f.content.drop start).take a
        ++ ((s.f.content.drop start).take (stop - start)).drop a := by
    have h := List.take_append_drop a ((s.f.content.drop start).take (stop - start))
    rw [List.take_take, Nat.min_eq_left ha] at h
    exact h.symm
  refine ⟨_, by simp only [readMMCall, readMM, hs]; rw [hread], ?_, ?_, fun hlen => ?_,
    rfl, rfl⟩
  · rw [htarget]
    cases fault with
    | none => exact ⟨_, hsplit⟩
    | some k =>
      refine ⟨((s.f.content.drop start).take a).drop k
        ++ ((s.f.content.drop start).take (stop - start)).drop a, ?_⟩
      rw [← List.append_assoc, List.take_append_drop]
      exact hsplit
  · cases fault with
    | none =>
      simp only [List.length_take, List.length_drop]
      omega
    | some k =>
      simp only [List.length_take, List.length_drop]
      omega
  · rw [htarget, ← hfull hlen]

/-- Instance of C17: reading `[1, 4)` of the five-byte file with a device that
fails after one byte returns that one byte; reading `[3, 9)` returns the two
bytes the file has left. -/
theorem readMM_fallback_swallows_witness :
    (∃ data : List Byte,
      (readMMCall globals0 segA (some 1) 1 4).data = some data ∧ data.length ≤ 4 - 1) ∧
    (readMMCall globals0 segA (some 1) 1 4).data = some [20] ∧
    (readMMCall globals0 segA none 3 9).data = some [40, 50] :=
  ⟨(readMM_fallback_swallows globals0 segA (some 1) 1 4 rfl (by decide)
      (by decide)).imp (fun _ h => ⟨h.1, h.2.2.1⟩),
   by decide, by decide⟩

/-- C18, at a failing input. On the mapped five-byte segment with the OS unmap
failing, `unloadMmap` returns the failure and yet leaves the segment Unmapped, so
Unmapped after the call does not tell that nil was returned; a repeated
`unloadMmap` is then a no-op returning nil without any OS call. A nil return
from `loadMmap` does not imply Mapped: a budget rejection returns nil and leaves
the segment Unmapped. -/
theorem unloadMmap_unmapped_after_failure :
    (unloadMmap globalsFive segAMapped (some enomem)).err = some enomem ∧
    (unloadMmap globalsFive segAMapped (some enomem)).s.mm = none ∧
    unloadMmap (unloadMmap globalsFive segAMapped (some enomem)).g
        (unloadMmap globalsFive segAMapped (some enomem)).s none
      = { err := none, g := globalsFive, s := segA, os := none } ∧
    (loadMmap globalsFull segA (.ok viewA)).err = none ∧
    (loadMmap globalsFull segA (.ok viewA)).s.mm = none := by
  decide

end Zap
